import Mathlib

/-!
Shallow embedding of the VGA text-buffer driver of `src/vga_buffer.rs`
(repository `alice_os`), together with proofs of the specified properties
of its writer state machine: byte sanitization, line wrap, scrolling,
line clearing and the packing of color attribute bytes.

Machine integers (`u8`, `usize`) are modelled as `Nat`, with reductions
`% 256` written explicitly where the Rust code could overflow `u8`.
`String` input is modelled byte-wise as `List Nat`, matching the byte-wise
iteration of `Writer::write_string` (which uses `s.bytes()`).
The memory-mapped cell grid is modelled as a total function
`Nat → Nat → ScreenChar`; only indices with row < BUFFER_HEIGHT and
col < BUFFER_WIDTH correspond to real cells, and the bounds theorems show
the driver never touches any other index.
The `for` loops of the Rust code are embedded as left folds over the
corresponding index ranges, reading from the evolving buffer exactly as
the volatile reads in the source do.
-/

set_option maxRecDepth 8000

namespace Vga

def BUFFER_HEIGHT : Nat := 25

def BUFFER_WIDTH : Nat := 80

/-- The 16-entry VGA color enumeration of `vga_buffer.rs` (`enum Color`). -/
inductive Color where
  | Black
  | Blue
  | Green
  | Cyan
  | Red
  | Magenta
  | Brown
  | LightGrey
  | DarkGray
  | LightBlue
  | LightGreen
  | LightCyan
  | LightRed
  | Pink
  | Yellow
  | White
deriving DecidableEq, Fintype

/-- The `#[repr(u8)]` discriminant of each `Color` variant. -/
def Color.code : Color → Nat
  | .Black => 0x0
  | .Blue => 0x1
  | .Green => 0x2
  | .Cyan => 0x3
  | .Red => 0x4
  | .Magenta => 0x5
  | .Brown => 0x6
  | .LightGrey => 0x7
  | .DarkGray => 0x8
  | .LightBlue => 0x9
  | .LightGreen => 0xa
  | .LightCyan => 0xb
  | .LightRed => 0xc
  | .Pink => 0xd
  | .Yellow => 0xe
  | .White => 0xf

/-- `struct ColorCode(u8)`: the packed attribute byte. -/
structure ColorCode where
  val : Nat
deriving DecidableEq

/-- `ColorCode::new(foreground, background)`:
`(background as u8) << 4 | (foreground as u8)`.
The `u8` shift is modelled with an explicit `% 256`. -/
def ColorCode.new (foreground background : Color) : ColorCode :=
  ⟨((background.code <<< 4) % 256) ||| foreground.code⟩

/-- `struct ScreenChar`: one character byte plus one attribute byte. -/
structure ScreenChar where
  ascii_character : Nat
  color_code : ColorCode
deriving DecidableEq

/-- The memory-mapped grid `Buffer` — `chars[row][col]` becomes application
of a function to `row` then `col`. -/
def Buffer : Type := Nat → Nat → ScreenChar

/-- A volatile write of one cell: `self.buffer.chars[row][col].write c`. -/
def Buffer.write (b : Buffer) (row col : Nat) (c : ScreenChar) : Buffer :=
  fun r cl => if r = row ∧ cl = col then c else b r cl

/-- `struct Writer`: cursor column, current color, and the buffer.  The
`&'static mut` reference becomes a field holding the grid itself. -/
structure Writer where
  column_position : Nat
  color_code : ColorCode
  buffer : Buffer

/-- `Writer::clear_line(row)`: write the blank cell (space, current color)
into every column of `row`. -/
def Writer.clear_line (w : Writer) (row : Nat) : Writer :=
  { w with
    buffer :=
      (List.range BUFFER_WIDTH).foldl
        (fun b col => b.write row col ⟨0x20, w.color_code⟩) w.buffer }

/-- `Writer::new_line()`: scroll every row up by one (for `row` in
`1..BUFFER_HEIGHT`, for `col` in `0..BUFFER_WIDTH`, copy the cell at
`(row, col)` into `(row-1, col)`, reading the evolving buffer), reset the
column to 0, and clear the bottom row. -/
def Writer.new_line (w : Writer) : Writer :=
  let scrolled : Writer :=
    { w with
      buffer :=
        (List.range' 1 (BUFFER_HEIGHT - 1)).foldl
          (fun b row =>
            (List.range BUFFER_WIDTH).foldl
              (fun b2 col => b2.write (row - 1) col (b2 row col)) b)
          w.buffer }
  let reset : Writer := { scrolled with column_position := 0 }
  reset.clear_line (BUFFER_HEIGHT - 1)

/-- `Writer::write_byte(byte)`: newline scrolls; otherwise wrap first when
the column is full, then place the cell at the bottom row and advance. -/
def Writer.write_byte (w : Writer) (byte : Nat) : Writer :=
  if byte = 0x0a then
    w.new_line
  else
    let w1 := if BUFFER_WIDTH ≤ w.column_position then w.new_line else w
    { w1 with
      buffer :=
        w1.buffer.write (BUFFER_HEIGHT - 1) w1.column_position
          ⟨byte, w1.color_code⟩,
      column_position := w1.column_position + 1 }

/-- `Writer::write_string(s)`: for each byte in order, printable bytes
(`0x20..=0x7e`) and `\n` go to `write_byte` unchanged, everything else is
replaced by `0xfe`. -/
def Writer.write_string (w : Writer) (s : List Nat) : Writer :=
  s.foldl
    (fun acc byte =>
      if (0x20 ≤ byte ∧ byte ≤ 0x7e) ∨ byte = 0x0a then acc.write_byte byte
      else acc.write_byte 0xfe)
    w

/-- The per-byte sanitization map implemented by the `match` inside
`write_string`: printable bytes and newline pass through, every other byte
becomes the invalid-glyph code `0xfe`. -/
def sanitize (byte : Nat) : Nat :=
  if (0x20 ≤ byte ∧ byte ≤ 0x7e) ∨ byte = 0x0a then byte else 0xfe

/-- One public `Writer` operation, for stating properties of arbitrary
operation sequences. -/
inductive WriterOp where
  | writeString (s : List Nat)
  | writeByte (b : Nat)

/-- Run one public operation. -/
def Writer.runOp (w : Writer) : WriterOp → Writer
  | .writeString s => w.write_string s
  | .writeByte b => w.write_byte b

/-- Run a sequence of public operations. -/
def Writer.runOps (w : Writer) (ops : List WriterOp) : Writer :=
  ops.foldl Writer.runOp w

/-- `_print(args)`: the formatted text (a byte list, formatting machinery
is external) is forwarded to the shared writer's `write_string` under the
`WRITER` lock; the lock is the identity on the writer state here. -/
def _print (w : Writer) (s : List Nat) : Writer :=
  w.write_string s

/-- `println!(template, args…)` expands to `print!("{}\n", …)`: the
formatted argument bytes followed by one newline byte. -/
def println_fmt (w : Writer) (s : List Nat) : Writer :=
  _print w (s ++ [0x0a])

/-- `println!()` expands to `print!("\n")`: a single newline byte. -/
def println_noargs (w : Writer) : Writer :=
  _print w [0x0a]

/-! ### Instrumented interpreter

The same state machine, additionally recording the `(row, col)` target of
every buffer write performed and whether `new_line` was invoked.  The
`writer` component is proved to coincide with the plain interpreter, so
statements about the recorded writes are statements about the writes the
driver really performs. -/

/-- Writer state plus a log of buffer-write targets and a wrap flag. -/
structure TraceState where
  writer : Writer
  writes : List (Nat × Nat)
  wrapped : Bool

/-- One buffer write, recorded. -/
def TraceState.write (t : TraceState) (row col : Nat) (c : ScreenChar) :
    TraceState :=
  { t with
    writer := { t.writer with buffer := t.writer.buffer.write row col c },
    writes := t.writes ++ [(row, col)] }

/-- Instrumented `clear_line`. -/
def TraceState.tclear_line (t : TraceState) (row : Nat) : TraceState :=
  (List.range BUFFER_WIDTH).foldl
    (fun t2 col => t2.write row col ⟨0x20, t.writer.color_code⟩) t

/-- Instrumented `new_line` (sets the wrap flag). -/
def TraceState.tnew_line (t : TraceState) : TraceState :=
  let scrolled : TraceState :=
    (List.range' 1 (BUFFER_HEIGHT - 1)).foldl
      (fun t2 row =>
        (List.range BUFFER_WIDTH).foldl
          (fun t3 col => t3.write (row - 1) col (t3.writer.buffer row col))
          t2)
      t
  let reset : TraceState :=
    { scrolled with
      writer := { scrolled.writer with column_position := 0 },
      wrapped := true }
  reset.tclear_line (BUFFER_HEIGHT - 1)

/-- Instrumented `write_byte`. -/
def TraceState.twrite_byte (t : TraceState) (byte : Nat) : TraceState :=
  if byte = 0x0a then
    t.tnew_line
  else
    let t1 :=
      if BUFFER_WIDTH ≤ t.writer.column_position then t.tnew_line else t
    let t2 :=
      t1.write (BUFFER_HEIGHT - 1) t1.writer.column_position
        ⟨byte, t1.writer.color_code⟩
    { t2 with
      writer := { t2.writer with
        column_position := t1.writer.column_position + 1 } }

/-- Instrumented `write_string`. -/
def TraceState.twrite_string (t : TraceState) (s : List Nat) : TraceState :=
  s.foldl
    (fun acc byte =>
      if (0x20 ≤ byte ∧ byte ≤ 0x7e) ∨ byte = 0x0a then acc.twrite_byte byte
      else acc.twrite_byte 0xfe)
    t

/-- Instrumented `runOp`. -/
def TraceState.trunOp (t : TraceState) : WriterOp → TraceState
  | .writeString s => t.twrite_string s
  | .writeByte b => t.twrite_byte b

/-- Instrumented `runOps`. -/
def TraceState.trunOps (t : TraceState) (ops : List WriterOp) : TraceState :=
  ops.foldl TraceState.trunOp t

/-! ### Concrete states used by witnesses -/

/-- The color of the shared `WRITER` singleton: cyan on black. -/
def testColor : ColorCode := ColorCode.new Color.Cyan Color.Black

/-- A fully blank grid. -/
def blankBuffer : Buffer := fun _ _ => ⟨0x20, testColor⟩

/-- A writer over the blank grid at a given column. -/
def testWriter (col : Nat) : Writer := ⟨col, testColor, blankBuffer⟩

/-! ### Pointwise characterization of the loops -/

theorem Buffer.write_apply (b : Buffer) (row col : Nat) (c : ScreenChar)
    (r cl : Nat) :
    b.write row col c r cl = if r = row ∧ cl = col then c else b r cl := rfl

/-- The `clear_line` loop, pointwise. -/
theorem clear_fold_apply (cc : ColorCode) (row : Nat) :
    ∀ (n : Nat) (b : Buffer) (r c : Nat),
      (List.range n).foldl (fun b2 col => b2.write row col ⟨0x20, cc⟩) b r c =
        if r = row ∧ c < n then ⟨0x20, cc⟩ else b r c := by
  intro n
  induction n with
  | zero => intro b r c; simp
  | succ n ih =>
    intro b r c
    rw [List.range_succ, List.foldl_append, List.foldl_cons, List.foldl_nil,
      Buffer.write_apply, ih]
    split_ifs <;> first | rfl | omega

/-- The inner scroll loop at a fixed `row ≥ 1`, pointwise: it copies the
row into the one above it. -/
theorem scroll_inner_apply (row : Nat) (hrow : 1 ≤ row) :
    ∀ (n : Nat) (b : Buffer) (r c : Nat),
      (List.range n).foldl
          (fun b2 col => b2.write (row - 1) col (b2 row col)) b r c =
        if r = row - 1 ∧ c < n then b row c else b r c := by
  intro n
  induction n with
  | zero => intro b r c; simp
  | succ n ih =>
    intro b r c
    rw [List.range_succ, List.foldl_append, List.foldl_cons, List.foldl_nil,
      Buffer.write_apply]
    by_cases hmain : r = row - 1 ∧ c = n
    · obtain ⟨h1, h2⟩ := hmain
      subst h1; subst h2
      rw [if_pos ⟨rfl, rfl⟩, ih, if_neg (by omega), if_pos ⟨rfl, by omega⟩]
    · rw [if_neg hmain, ih]
      split_ifs with h1 h2
      · rfl
      · omega
      · omega
      · rfl

/-- The full scroll loop (over rows `1..k+1`), pointwise: each in-range
cell moves up one row. -/
theorem scroll_fold_apply :
    ∀ (k : Nat) (b : Buffer) (r c : Nat),
      (List.range' 1 k).foldl
          (fun b row =>
            (List.range BUFFER_WIDTH).foldl
              (fun b2 col => b2.write (row - 1) col (b2 row col)) b) b r c =
        if r < k ∧ c < BUFFER_WIDTH then b (r + 1) c else b r c := by
  intro k
  induction k with
  | zero => intro b r c; simp
  | succ k ih =>
    intro b r c
    have hconc : List.range' 1 (k + 1) = List.range' 1 k ++ [k + 1] := by
      have h0 := List.range'_1_concat 1 k
      rw [Nat.add_comm 1 k] at h0
      exact h0
    rw [hconc, List.foldl_append, List.foldl_cons, List.foldl_nil,
      scroll_inner_apply (k + 1) (by omega)]
    have hk : k + 1 - 1 = k := by omega
    rw [hk, ih, ih]
    by_cases hcw : c < BUFFER_WIDTH
    · by_cases hr : r = k
      · subst hr
        rw [if_pos ⟨rfl, hcw⟩, if_neg (by omega), if_pos ⟨by omega, hcw⟩]
      · rw [if_neg (by omega)]
        by_cases hrk : r < k
        · rw [if_pos ⟨hrk, hcw⟩, if_pos ⟨by omega, hcw⟩]
        · rw [if_neg (by omega), if_neg (by omega)]
    · rw [if_neg (by omega), if_neg (by omega), if_neg (by omega)]

/-- `clear_line`, componentwise. -/
theorem clear_line_buffer (w : Writer) (row r c : Nat) :
    (w.clear_line row).buffer r c =
      if r = row ∧ c < BUFFER_WIDTH then ⟨0x20, w.color_code⟩
      else w.buffer r c := by
  have h : (w.clear_line row).buffer r c =
      (List.range BUFFER_WIDTH).foldl
        (fun b2 col => b2.write row col ⟨0x20, w.color_code⟩) w.buffer r c :=
    rfl
  rw [h, clear_fold_apply]

theorem clear_line_column (w : Writer) (row : Nat) :
    (w.clear_line row).column_position = w.column_position := rfl

theorem clear_line_color (w : Writer) (row : Nat) :
    (w.clear_line row).color_code = w.color_code := rfl

set_option maxRecDepth 4000 in
/-- `new_line`, on the buffer: the bottom row becomes blank, every other
in-range cell takes the value of the cell one row below, out-of-range
indices are untouched. -/
theorem new_line_buffer (w : Writer) (r c : Nat) :
    (w.new_line).buffer r c =
      if r = BUFFER_HEIGHT - 1 ∧ c < BUFFER_WIDTH then ⟨0x20, w.color_code⟩
      else if r < BUFFER_HEIGHT - 1 ∧ c < BUFFER_WIDTH then w.buffer (r + 1) c
      else w.buffer r c := by
  have h : (w.new_line).buffer r c =
      (List.range BUFFER_WIDTH).foldl
        (fun b2 col =>
          b2.write (BUFFER_HEIGHT - 1) col ⟨0x20, w.color_code⟩)
        ((List.range' 1 (BUFFER_HEIGHT - 1)).foldl
          (fun b row =>
            (List.range BUFFER_WIDTH).foldl
              (fun b2 col => b2.write (row - 1) col (b2 row col)) b)
          w.buffer) r c := rfl
  rw [h, clear_fold_apply, scroll_fold_apply]

theorem new_line_column (w : Writer) : (w.new_line).column_position = 0 := rfl

theorem new_line_color (w : Writer) :
    (w.new_line).color_code = w.color_code := rfl

/-- `write_byte` on a newline is exactly `new_line`. -/
theorem write_byte_newline (w : Writer) : w.write_byte 0x0a = w.new_line := rfl

/-- `write_byte` on a non-newline byte with room on the line: one cell is
written at the cursor and the column advances. -/
theorem write_byte_no_wrap (w : Writer) (b : Nat) (hb : b ≠ 0x0a)
    (hc : w.column_position < BUFFER_WIDTH) :
    w.write_byte b =
      ⟨w.column_position + 1, w.color_code,
        w.buffer.write (BUFFER_HEIGHT - 1) w.column_position
          ⟨b, w.color_code⟩⟩ := by
  simp only [Writer.write_byte, if_neg hb]
  rw [if_neg (show ¬ BUFFER_WIDTH ≤ w.column_position by omega)]

/-- `write_byte` on a non-newline byte with the line full: `new_line`
runs first, then the byte lands at column 0 of the bottom row. -/
theorem write_byte_wrap (w : Writer) (b : Nat) (hb : b ≠ 0x0a)
    (hc : BUFFER_WIDTH ≤ w.column_position) :
    w.write_byte b =
      ⟨1, w.color_code,
        (w.new_line).buffer.write (BUFFER_HEIGHT - 1) 0 ⟨b, w.color_code⟩⟩ := by
  simp only [Writer.write_byte, if_neg hb]
  rw [if_pos hc, new_line_column, new_line_color]

/-- After any `write_byte`, the column is at most `BUFFER_WIDTH`. -/
theorem write_byte_column_le (w : Writer) (b : Nat) :
    (w.write_byte b).column_position ≤ BUFFER_WIDTH := by
  by_cases hb : b = 0x0a
  · subst hb
    rw [write_byte_newline, new_line_column]
    omega
  · by_cases hc : BUFFER_WIDTH ≤ w.column_position
    · rw [write_byte_wrap w b hb hc]
      show 1 ≤ BUFFER_WIDTH
      rw [show BUFFER_WIDTH = 80 from rfl]
      omega
    · rw [write_byte_no_wrap w b hb (by omega)]
      show w.column_position + 1 ≤ BUFFER_WIDTH
      omega

/-- `write_byte` never changes the color. -/
theorem write_byte_color (w : Writer) (b : Nat) :
    (w.write_byte b).color_code = w.color_code := by
  by_cases hb : b = 0x0a
  · subst hb; rw [write_byte_newline, new_line_color]
  · by_cases hc : BUFFER_WIDTH ≤ w.column_position
    · rw [write_byte_wrap w b hb hc]
    · rw [write_byte_no_wrap w b hb (by omega)]

/-- One step of `write_string` sanitizes and forwards. -/
theorem write_string_cons (w : Writer) (b : Nat) (s : List Nat) :
    w.write_string (b :: s) = (w.write_byte (sanitize b)).write_string s := by
  simp only [Writer.write_string, List.foldl_cons, sanitize]
  split_ifs <;> rfl

theorem write_string_nil (w : Writer) : w.write_string [] = w := rfl

/-- `write_string` is the plain fold of `write_byte` over the sanitized
byte list. -/
theorem write_string_eq_foldl_sanitize :
    ∀ (s : List Nat) (w : Writer),
      w.write_string s = (s.map sanitize).foldl Writer.write_byte w := by
  intro s
  induction s with
  | nil => intro w; rfl
  | cons b s ih =>
    intro w
    rw [write_string_cons, List.map_cons, List.foldl_cons, ih]

/-- On a list of printable or newline bytes, `write_string` is the plain
fold of `write_byte`. -/
theorem write_string_eq_foldl_of_printable :
    ∀ (s : List Nat) (w : Writer),
      (∀ b ∈ s, (0x20 ≤ b ∧ b ≤ 0x7e) ∨ b = 0x0a) →
      w.write_string s = s.foldl Writer.write_byte w := by
  intro s
  induction s with
  | nil => intro w _; rfl
  | cons b s ih =>
    intro w hs
    rw [write_string_cons, List.foldl_cons]
    have hb : sanitize b = b := by
      unfold sanitize
      rw [if_pos (hs b (List.mem_cons_self b s))]
    rw [hb, ih _ (fun x hx => hs x (List.mem_cons_of_mem b hx))]

/-- After `write_string` the column is at most `BUFFER_WIDTH` (given that
it started there — the empty string writes nothing). -/
theorem write_string_column_le :
    ∀ (s : List Nat) (w : Writer), w.column_position ≤ BUFFER_WIDTH →
      (w.write_string s).column_position ≤ BUFFER_WIDTH := by
  intro s
  induction s with
  | nil => intro w h; exact h
  | cons b s ih =>
    intro w h
    rw [write_string_cons]
    exact ih _ (write_byte_column_le w (sanitize b))

/-- Writing a run of non-newline bytes that fits on the current line:
the bytes land in order at the cursor on the bottom row, the column
advances by the length, nothing else changes. -/
theorem write_run :
    ∀ (bs : List Nat) (w : Writer), (∀ b ∈ bs, b ≠ 0x0a) →
      w.column_position + bs.length ≤ BUFFER_WIDTH →
      ((bs.foldl Writer.write_byte w).column_position
          = w.column_position + bs.length) ∧
      ((bs.foldl Writer.write_byte w).color_code = w.color_code) ∧
      ∀ r c, (bs.foldl Writer.write_byte w).buffer r c =
        if r = BUFFER_HEIGHT - 1 ∧ w.column_position ≤ c ∧
            c < w.column_position + bs.length then
          ⟨bs.getD (c - w.column_position) 0, w.color_code⟩
        else w.buffer r c := by
  intro bs
  induction bs with
  | nil =>
    intro w _ _
    refine ⟨by simp, rfl, ?_⟩
    intro r c
    rw [List.foldl_nil, List.length_nil, if_neg (by omega)]
  | cons b bs ih =>
    intro w hnl hlen
    rw [List.length_cons] at hlen
    have hb : b ≠ 0x0a := hnl b (List.mem_cons_self b bs)
    have hc : w.column_position < BUFFER_WIDTH := by omega
    rw [List.foldl_cons, write_byte_no_wrap w b hb hc]
    obtain ⟨ihcol, ihcolor, ihbuf⟩ :=
      ih ⟨w.column_position + 1, w.color_code,
            w.buffer.write (BUFFER_HEIGHT - 1) w.column_position
              ⟨b, w.color_code⟩⟩
        (fun x hx => hnl x (List.mem_cons_of_mem b hx))
        (show w.column_position + 1 + bs.length ≤ BUFFER_WIDTH by omega)
    have ihcol' :
        ((bs.foldl Writer.write_byte
            ⟨w.column_position + 1, w.color_code,
              w.buffer.write (BUFFER_HEIGHT - 1) w.column_position
                ⟨b, w.color_code⟩⟩).column_position)
          = w.column_position + 1 + bs.length := ihcol
    have ihcolor' :
        ((bs.foldl Writer.write_byte
            ⟨w.column_position + 1, w.color_code,
              w.buffer.write (BUFFER_HEIGHT - 1) w.column_position
                ⟨b, w.color_code⟩⟩).color_code) = w.color_code := ihcolor
    refine ⟨by rw [ihcol', List.length_cons]; omega, ihcolor', ?_⟩
    intro r c
    have ihbuf' :
        (bs.foldl Writer.write_byte
          ⟨w.column_position + 1, w.color_code,
            w.buffer.write (BUFFER_HEIGHT - 1) w.column_position
              ⟨b, w.color_code⟩⟩).buffer r c =
        if r = BUFFER_HEIGHT - 1 ∧ w.column_position + 1 ≤ c ∧
            c < w.column_position + 1 + bs.length then
          ⟨bs.getD (c - (w.column_position + 1)) 0, w.color_code⟩
        else if r = BUFFER_HEIGHT - 1 ∧ c = w.column_position then
          ⟨b, w.color_code⟩
        else w.buffer r c := ihbuf r c
    rw [ihbuf', List.length_cons]
    by_cases h1 : r = BUFFER_HEIGHT - 1 ∧ w.column_position + 1 ≤ c ∧
        c < w.column_position + 1 + bs.length
    · rw [if_pos h1, if_pos (by omega)]
      have hidx : c - w.column_position = (c - (w.column_position + 1)) + 1 :=
        by omega
      rw [hidx, List.getD_cons_succ]
    · rw [if_neg h1]
      by_cases h2 : r = BUFFER_HEIGHT - 1 ∧ c = w.column_position
      · rw [if_pos h2, if_pos (by omega)]
        have hidx : c - w.column_position = 0 := by omega
        rw [hidx, List.getD_cons_zero]
      · rw [if_neg h2, if_neg (by omega)]

/-! ### The instrumented interpreter computes the same writer -/

/-- Folding recorded single-cell writes: the writer component is the
corresponding buffer fold, the wrap flag is untouched, and the recorded
targets are exactly `(row, col)` for each visited column. -/
theorem tfold_write_components (row : Nat) (cellf : Buffer → Nat → ScreenChar) :
    ∀ (l : List Nat) (t : TraceState),
      ((l.foldl
          (fun t2 col => t2.write row col (cellf t2.writer.buffer col))
          t).writer =
        ⟨t.writer.column_position, t.writer.color_code,
          l.foldl (fun b col => b.write row col (cellf b col))
            t.writer.buffer⟩) ∧
      ((l.foldl
          (fun t2 col => t2.write row col (cellf t2.writer.buffer col))
          t).wrapped = t.wrapped) ∧
      ((l.foldl
          (fun t2 col => t2.write row col (cellf t2.writer.buffer col))
          t).writes = t.writes ++ l.map (fun col => (row, col))) := by
  intro l
  induction l with
  | nil =>
    intro t
    exact ⟨rfl, rfl, by simp⟩
  | cons x l ih =>
    intro t
    rw [List.foldl_cons, List.foldl_cons, List.map_cons]
    refine ⟨(ih _).1, (ih _).2.1, ?_⟩
    have hw : ((t.write row x (cellf t.writer.buffer x)).writes)
        = t.writes ++ [(row, x)] := rfl
    rw [(ih _).2.2, hw, List.append_assoc, List.singleton_append]

/-- The outer scroll fold: writer component, wrap flag, and a bound on
every recorded write target. -/
theorem tscroll_outer_components :
    ∀ (l : List Nat) (t : TraceState),
      ((l.foldl
          (fun t2 row =>
            (List.range BUFFER_WIDTH).foldl
              (fun t3 col =>
                t3.write (row - 1) col (t3.writer.buffer row col)) t2)
          t).writer =
        ⟨t.writer.column_position, t.writer.color_code,
          l.foldl
            (fun b row =>
              (List.range BUFFER_WIDTH).foldl
                (fun b2 col => b2.write (row - 1) col (b2 row col)) b)
            t.writer.buffer⟩) ∧
      ((l.foldl
          (fun t2 row =>
            (List.range BUFFER_WIDTH).foldl
              (fun t3 col =>
                t3.write (row - 1) col (t3.writer.buffer row col)) t2)
          t).wrapped = t.wrapped) ∧
      ∀ p ∈ (l.foldl
          (fun t2 row =>
            (List.range BUFFER_WIDTH).foldl
              (fun t3 col =>
                t3.write (row - 1) col (t3.writer.buffer row col)) t2)
          t).writes,
        p ∈ t.writes ∨
          ∃ row ∈ l, ∃ col, col < BUFFER_WIDTH ∧ p = (row - 1, col) := by
  intro l
  induction l with
  | nil =>
    intro t
    refine ⟨rfl, rfl, ?_⟩
    intro p hp
    exact Or.inl hp
  | cons x l ih =>
    intro t
    rw [List.foldl_cons, List.foldl_cons]
    obtain ⟨hw, hwr, hws⟩ :=
      tfold_write_components (x - 1) (fun b col => b x col)
        (List.range BUFFER_WIDTH) t
    refine ⟨?_, ?_, ?_⟩
    · rw [(ih _).1, hw]
    · rw [(ih _).2.1, hwr]
    · intro p hp
      rcases (ih _).2.2 p hp with h | ⟨row, hrow, col, hcol, hpeq⟩
      · rw [hws] at h
        rcases List.mem_append.mp h with h2 | h2
        · exact Or.inl h2
        · obtain ⟨col, hcol, hpeq⟩ := List.mem_map.mp h2
          exact Or.inr ⟨x, List.mem_cons_self x l, col,
            List.mem_range.mp hcol, hpeq.symm⟩
      · exact Or.inr ⟨row, List.mem_cons_of_mem x hrow, col, hcol, hpeq⟩

/-- Instrumented `clear_line`: same writer as `clear_line`, wrap flag
untouched, and it records exactly the writes into the given row. -/
theorem tclear_line_components (t : TraceState) (row : Nat) :
    (t.tclear_line row).writer = t.writer.clear_line row ∧
    (t.tclear_line row).wrapped = t.wrapped ∧
    (t.tclear_line row).writes =
      t.writes ++ (List.range BUFFER_WIDTH).map (fun col => (row, col)) := by
  obtain ⟨h1, h2, h3⟩ :=
    tfold_write_components row (fun _ _ => (⟨0x20, t.writer.color_code⟩ : ScreenChar))
      (List.range BUFFER_WIDTH) t
  exact ⟨h1, h2, h3⟩

/-- Instrumented `new_line`: same writer as `new_line`, the wrap flag is
set, and every recorded write target is in range. -/
theorem tnew_line_components (t : TraceState) :
    (t.tnew_line).writer = t.writer.new_line ∧
    (t.tnew_line).wrapped = true ∧
    ∀ p ∈ (t.tnew_line).writes,
      p ∈ t.writes ∨ (p.1 < BUFFER_HEIGHT ∧ p.2 < BUFFER_WIDTH) := by
  obtain ⟨hsw, hswr, hsws⟩ :=
    tscroll_outer_components (List.range' 1 (BUFFER_HEIGHT - 1)) t
  have hreset :
      (⟨⟨0, (⟨t.writer.column_position, t.writer.color_code,
          (List.range' 1 (BUFFER_HEIGHT - 1)).foldl
            (fun b row =>
              (List.range BUFFER_WIDTH).foldl
                (fun b2 col => b2.write (row - 1) col (b2 row col)) b)
            t.writer.buffer⟩ : Writer).color_code,
          (⟨t.writer.column_position, t.writer.color_code,
          (List.range' 1 (BUFFER_HEIGHT - 1)).foldl
            (fun b row =>
              (List.range BUFFER_WIDTH).foldl
                (fun b2 col => b2.write (row - 1) col (b2 row col)) b)
            t.writer.buffer⟩ : Writer).buffer⟩,
        (((List.range' 1 (BUFFER_HEIGHT - 1)).foldl
          (fun t2 row =>
            (List.range BUFFER_WIDTH).foldl
              (fun t3 col =>
                t3.write (row - 1) col (t3.writer.buffer row col)) t2)
          t)).writes, true⟩ : TraceState) =
      (⟨⟨0, ((((List.range' 1 (BUFFER_HEIGHT - 1)).foldl
          (fun t2 row =>
            (List.range BUFFER_WIDTH).foldl
              (fun t3 col =>
                t3.write (row - 1) col (t3.writer.buffer row col)) t2)
          t)).writer).color_code,
          ((((List.range' 1 (BUFFER_HEIGHT - 1)).foldl
          (fun t2 row =>
            (List.range BUFFER_WIDTH).foldl
              (fun t3 col =>
                t3.write (row - 1) col (t3.writer.buffer row col)) t2)
          t)).writer).buffer⟩,
        (((List.range' 1 (BUFFER_HEIGHT - 1)).foldl
          (fun t2 row =>
            (List.range BUFFER_WIDTH).foldl
              (fun t3 col =>
                t3.write (row - 1) col (t3.writer.buffer row col)) t2)
          t)).writes, true⟩ : TraceState) := by
    rw [hsw]
  refine ⟨?_, ?_, ?_⟩
  · show ((⟨⟨0, _, _⟩, _, true⟩ : TraceState).tclear_line
        (BUFFER_HEIGHT - 1)).writer = t.writer.new_line
    rw [(tclear_line_components _ _).1, ← hreset]
    rfl
  · show ((⟨⟨0, _, _⟩, _, true⟩ : TraceState).tclear_line
        (BUFFER_HEIGHT - 1)).wrapped = true
    rw [(tclear_line_components _ _).2.1]
  · intro p hp
    have hp2 := hp
    rw [show (t.tnew_line).writes =
        ((⟨⟨0, ((((List.range' 1 (BUFFER_HEIGHT - 1)).foldl
          (fun t2 row =>
            (List.range BUFFER_WIDTH).foldl
              (fun t3 col =>
                t3.write (row - 1) col (t3.writer.buffer row col)) t2)
          t)).writer).color_code,
          ((((List.range' 1 (BUFFER_HEIGHT - 1)).foldl
          (fun t2 row =>
            (List.range BUFFER_WIDTH).foldl
              (fun t3 col =>
                t3.write (row - 1) col (t3.writer.buffer row col)) t2)
          t)).writer).buffer⟩,
        (((List.range' 1 (BUFFER_HEIGHT - 1)).foldl
          (fun t2 row =>
            (List.range BUFFER_WIDTH).foldl
              (fun t3 col =>
                t3.write (row - 1) col (t3.writer.buffer row col)) t2)
          t)).writes, true⟩ : TraceState).tclear_line
            (BUFFER_HEIGHT - 1)).writes from rfl,
      (tclear_line_components _ _).2.2] at hp2
    rcases List.mem_append.mp hp2 with h2 | h2
    · rcases hsws p h2 with h3 | ⟨row, hrow, col, hcol, hpeq⟩
      · exact Or.inl h3
      · refine Or.inr ?_
        rw [hpeq]
        refine ⟨?_, hcol⟩
        have hr := (List.mem_range'_1.mp hrow).2
        show row - 1 < BUFFER_HEIGHT
        have hH : BUFFER_HEIGHT = 25 := rfl
        rw [hH] at hr ⊢
        omega
    · obtain ⟨col, hcol, hpeq⟩ := List.mem_map.mp h2
      refine Or.inr ?_
      rw [← hpeq]
      exact ⟨show BUFFER_HEIGHT - 1 < BUFFER_HEIGHT by decide,
        List.mem_range.mp hcol⟩

/-- The common tail of the non-newline branch of the instrumented
`write_byte`, over an arbitrary entry state. -/
theorem twrite_core_eq (t1 : TraceState) (b : Nat) :
    (let t2 := t1.write (BUFFER_HEIGHT - 1) t1.writer.column_position
        ⟨b, t1.writer.color_code⟩;
     ({ t2 with writer := { t2.writer with
        column_position := t1.writer.column_position + 1 } } : TraceState)) =
    ⟨⟨t1.writer.column_position + 1, t1.writer.color_code,
        t1.writer.buffer.write (BUFFER_HEIGHT - 1) t1.writer.column_position
          ⟨b, t1.writer.color_code⟩⟩,
      t1.writes ++ [(BUFFER_HEIGHT - 1, t1.writer.column_position)],
      t1.wrapped⟩ := rfl

/-- Instrumented `write_byte`, non-newline, line full. -/
theorem twrite_byte_wrap_eq (t : TraceState) (b : Nat) (hb : b ≠ 0x0a)
    (hcol : BUFFER_WIDTH ≤ t.writer.column_position) :
    t.twrite_byte b =
      ⟨⟨(t.tnew_line).writer.column_position + 1,
          (t.tnew_line).writer.color_code,
          (t.tnew_line).writer.buffer.write (BUFFER_HEIGHT - 1)
            (t.tnew_line).writer.column_position
            ⟨b, (t.tnew_line).writer.color_code⟩⟩,
        (t.tnew_line).writes ++
          [(BUFFER_HEIGHT - 1, (t.tnew_line).writer.column_position)],
        (t.tnew_line).wrapped⟩ := by
  delta TraceState.twrite_byte
  rw [if_neg hb, if_pos hcol]
  exact twrite_core_eq t.tnew_line b

/-- Instrumented `write_byte`, non-newline, room on the line. -/
theorem twrite_byte_no_wrap_eq (t : TraceState) (b : Nat) (hb : b ≠ 0x0a)
    (hcol : ¬ BUFFER_WIDTH ≤ t.writer.column_position) :
    t.twrite_byte b =
      ⟨⟨t.writer.column_position + 1, t.writer.color_code,
          t.writer.buffer.write (BUFFER_HEIGHT - 1) t.writer.column_position
            ⟨b, t.writer.color_code⟩⟩,
        t.writes ++ [(BUFFER_HEIGHT - 1, t.writer.column_position)],
        t.wrapped⟩ := by
  delta TraceState.twrite_byte
  rw [if_neg hb, if_neg hcol]
  exact twrite_core_eq t b

/-- Instrumented `write_byte`: same writer as `write_byte`, the wrap flag
records whether `new_line` ran, and every recorded target is in range. -/
theorem twrite_byte_components (t : TraceState) (b : Nat) :
    (t.twrite_byte b).writer = t.writer.write_byte b ∧
    ((t.twrite_byte b).wrapped =
      if b = 0x0a then true
      else if BUFFER_WIDTH ≤ t.writer.column_position then true
      else t.wrapped) ∧
    ∀ p ∈ (t.twrite_byte b).writes,
      p ∈ t.writes ∨ (p.1 < BUFFER_HEIGHT ∧ p.2 < BUFFER_WIDTH) := by
  by_cases hb : b = 0x0a
  · subst hb
    have he : t.twrite_byte 0x0a = t.tnew_line := rfl
    obtain ⟨h1, h2, h3⟩ := tnew_line_components t
    rw [he, if_pos rfl]
    exact ⟨by rw [h1, write_byte_newline], h2, h3⟩
  · by_cases hcol : BUFFER_WIDTH ≤ t.writer.column_position
    · rw [twrite_byte_wrap_eq t b hb hcol, if_neg hb, if_pos hcol]
      obtain ⟨h1, h2, h3⟩ := tnew_line_components t
      refine ⟨?_, h2, ?_⟩
      · show (⟨(t.tnew_line).writer.column_position + 1,
            (t.tnew_line).writer.color_code,
            (t.tnew_line).writer.buffer.write (BUFFER_HEIGHT - 1)
              (t.tnew_line).writer.column_position
              ⟨b, (t.tnew_line).writer.color_code⟩⟩ : Writer)
          = t.writer.write_byte b
        rw [h1, write_byte_wrap t.writer b hb hcol, new_line_column,
          new_line_color]
      · intro p hp
        rcases List.mem_append.mp hp with h4 | h4
        · exact h3 p h4
        · rw [List.mem_singleton] at h4
          subst h4
          rw [h1, new_line_column]
          exact Or.inr ⟨show BUFFER_HEIGHT - 1 < BUFFER_HEIGHT by decide,
            show 0 < BUFFER_WIDTH by decide⟩
    · rw [twrite_byte_no_wrap_eq t b hb hcol, if_neg hb, if_neg hcol]
      refine ⟨?_, rfl, ?_⟩
      · rw [write_byte_no_wrap t.writer b hb (by omega)]
      · intro p hp
        rcases List.mem_append.mp hp with h4 | h4
        · exact Or.inl h4
        · rw [List.mem_singleton] at h4
          subst h4
          exact Or.inr ⟨show BUFFER_HEIGHT - 1 < BUFFER_HEIGHT by decide,
            by omega⟩

/-- One step of the instrumented `write_string`. -/
theorem twrite_string_cons (t : TraceState) (b : Nat) (s : List Nat) :
    t.twrite_string (b :: s) =
      (t.twrite_byte (sanitize b)).twrite_string s := by
  simp only [TraceState.twrite_string, List.foldl_cons, sanitize]
  split_ifs <;> rfl

/-- Instrumented `write_string`: same writer as `write_string` and every
recorded target is in range. -/
theorem twrite_string_components :
    ∀ (s : List Nat) (t : TraceState),
      (t.twrite_string s).writer = t.writer.write_string s ∧
      ∀ p ∈ (t.twrite_string s).writes,
        p ∈ t.writes ∨ (p.1 < BUFFER_HEIGHT ∧ p.2 < BUFFER_WIDTH) := by
  intro s
  induction s with
  | nil =>
    intro t
    exact ⟨rfl, fun p hp => Or.inl hp⟩
  | cons b s ih =>
    intro t
    rw [twrite_string_cons, write_string_cons]
    obtain ⟨h1, _, h3⟩ := twrite_byte_components t (sanitize b)
    refine ⟨?_, ?_⟩
    · rw [(ih _).1, h1]
    · intro p hp
      rcases (ih _).2 p hp with h4 | h4
      · exact h3 p h4
      · exact Or.inr h4

/-- Instrumented single operation: faithful and in-range. -/
theorem trunOp_components (t : TraceState) (op : WriterOp) :
    (t.trunOp op).writer = t.writer.runOp op ∧
    ∀ p ∈ (t.trunOp op).writes,
      p ∈ t.writes ∨ (p.1 < BUFFER_HEIGHT ∧ p.2 < BUFFER_WIDTH) := by
  cases op with
  | writeString s => exact ⟨(twrite_string_components s t).1,
      (twrite_string_components s t).2⟩
  | writeByte b => exact ⟨(twrite_byte_components t b).1,
      (twrite_byte_components t b).2.2⟩

/-- Instrumented operation sequences: faithful and in-range. -/
theorem trunOps_components :
    ∀ (ops : List WriterOp) (t : TraceState),
      (t.trunOps ops).writer = t.writer.runOps ops ∧
      ∀ p ∈ (t.trunOps ops).writes,
        p ∈ t.writes ∨ (p.1 < BUFFER_HEIGHT ∧ p.2 < BUFFER_WIDTH) := by
  intro ops
  induction ops with
  | nil =>
    intro t
    exact ⟨rfl, fun p hp => Or.inl hp⟩
  | cons op ops ih =>
    intro t
    obtain ⟨h1, h2⟩ := trunOp_components t op
    refine ⟨?_, ?_⟩
    · show ((t.trunOp op).trunOps ops).writer = ((t.writer.runOp op).runOps ops)
      rw [(ih _).1, h1]
    · intro p hp
      rcases (ih (t.trunOp op)).2 p hp with h4 | h4
      · exact h2 p h4
      · exact Or.inr h4

/-- Column bound after one public operation. -/
theorem runOp_column_le (w : Writer) (op : WriterOp)
    (h : w.column_position ≤ BUFFER_WIDTH) :
    (w.runOp op).column_position ≤ BUFFER_WIDTH := by
  cases op with
  | writeString s => exact write_string_column_le s w h
  | writeByte b => exact write_byte_column_le w b

/-- Column bound after any sequence of public operations. -/
theorem runOps_column_le :
    ∀ (ops : List WriterOp) (w : Writer), w.column_position ≤ BUFFER_WIDTH →
      (w.runOps ops).column_position ≤ BUFFER_WIDTH := by
  intro ops
  induction ops with
  | nil => intro w h; exact h
  | cons op ops ih =>
    intro w h
    exact ih (w.runOp op) (runOp_column_le w op h)

theorem Writer.buffer_mk (n : Nat) (cc : ColorCode) (bf : Buffer) :
    (⟨n, cc, bf⟩ : Writer).buffer = bf := rfl

theorem Writer.column_mk (n : Nat) (cc : ColorCode) (bf : Buffer) :
    (⟨n, cc, bf⟩ : Writer).column_position = n := rfl

/-- `getD` is stable under taking a prefix longer than the index. -/
theorem getD_take_eq (bs : List Nat) (n i d : Nat) (h : i < n) :
    (bs.take n).getD i d = bs.getD i d := by
  by_cases hi : i < bs.length
  · have hlen : i < (bs.take n).length := by
      rw [List.length_take]
      omega
    rw [List.getD_eq_getElem _ _ hlen, List.getD_eq_getElem _ _ hi,
      List.getElem_take]
  · have h1 : bs.length ≤ i := by omega
    have h2 : (bs.take n).length ≤ i := by
      rw [List.length_take]
      omega
    rw [List.getD_eq_default _ _ h2, List.getD_eq_default _ _ h1]

/-! ### The claims -/

/-- C1: Wrap-before-write.  (i) For every writer state, `write_byte` with
a non-newline byte when the column is at least `BUFFER_WIDTH` equals: run
`new_line` (scroll, column reset, bottom-row clear) and then place the
byte at column 0 of the bottom row, leaving the column at 1.  (ii)
Consequently, writing exactly `BUFFER_WIDTH + 1` printable non-newline
bytes through `write_string` from column 0 leaves the first
`BUFFER_WIDTH` bytes, in order, on row `BUFFER_HEIGHT - 2`, and the last
byte at column 0 of row `BUFFER_HEIGHT - 1`. -/
theorem c1_wrap_before_write :
    (∀ (w : Writer) (b : Nat), b ≠ 0x0a → BUFFER_WIDTH ≤ w.column_position →
      w.write_byte b =
        ⟨1, w.color_code,
          (w.new_line).buffer.write (BUFFER_HEIGHT - 1) 0
            ⟨b, w.color_code⟩⟩) ∧
    (∀ (bs : List Nat) (w : Writer), w.column_position = 0 →
      bs.length = BUFFER_WIDTH + 1 →
      (∀ b ∈ bs, 0x20 ≤ b ∧ b ≤ 0x7e) →
      (∀ i, i < BUFFER_WIDTH →
        (w.write_string bs).buffer (BUFFER_HEIGHT - 2) i =
          ⟨bs.getD i 0, w.color_code⟩) ∧
      (w.write_string bs).buffer (BUFFER_HEIGHT - 1) 0 =
        ⟨bs.getD BUFFER_WIDTH 0, w.color_code⟩ ∧
      (w.write_string bs).column_position = 1) := by
  refine ⟨write_byte_wrap, ?_⟩
  intro bs w hcol0 hlen hpr
  have hws : w.write_string bs = bs.foldl Writer.write_byte w :=
    write_string_eq_foldl_of_printable bs w (fun b hb => Or.inl (hpr b hb))
  have hW : BUFFER_WIDTH < bs.length := by omega
  have hsplit : bs.take BUFFER_WIDTH ++ bs.drop BUFFER_WIDTH = bs :=
    List.take_append_drop BUFFER_WIDTH bs
  have hdrop : bs.drop BUFFER_WIDTH = [bs.getD BUFFER_WIDTH 0] := by
    rw [List.drop_eq_getElem_cons hW, List.drop_eq_nil_of_le (by omega),
      List.getD_eq_getElem _ _ hW]
  have htake_len : (bs.take BUFFER_WIDTH).length = BUFFER_WIDTH := by
    rw [List.length_take]
    omega
  obtain ⟨hcol1, hcolor1, hbuf1⟩ :=
    write_run (bs.take BUFFER_WIDTH) w
      (fun b hb => by
        have := hpr b (List.mem_of_mem_take hb)
        omega)
      (by omega)
  have hw1col :
      ((bs.take BUFFER_WIDTH).foldl Writer.write_byte w).column_position =
        BUFFER_WIDTH := by
    rw [hcol1, hcol0, htake_len]
    omega
  have hb80 : 0x20 ≤ bs.getD BUFFER_WIDTH 0 ∧ bs.getD BUFFER_WIDTH 0 ≤ 0x7e := by
    have hmem : bs.getD BUFFER_WIDTH 0 ∈ bs := by
      rw [List.getD_eq_getElem _ _ hW]
      exact List.getElem_mem hW
    exact hpr _ hmem
  have hb80ne : bs.getD BUFFER_WIDTH 0 ≠ 0x0a := by omega
  have hwrap :=
    write_byte_wrap ((bs.take BUFFER_WIDTH).foldl Writer.write_byte w)
      (bs.getD BUFFER_WIDTH 0) hb80ne (by omega)
  have hfold : bs.foldl Writer.write_byte w =
      ((bs.take BUFFER_WIDTH).foldl Writer.write_byte w).write_byte
        (bs.getD BUFFER_WIDTH 0) := by
    conv_lhs => rw [← hsplit]
    rw [List.foldl_append, hdrop, List.foldl_cons, List.foldl_nil]
  have hfinal : w.write_string bs =
      ⟨1, ((bs.take BUFFER_WIDTH).foldl Writer.write_byte w).color_code,
        ((((bs.take BUFFER_WIDTH).foldl Writer.write_byte w)).new_line).buffer.write
          (BUFFER_HEIGHT - 1) 0
          ⟨bs.getD BUFFER_WIDTH 0,
            ((bs.take BUFFER_WIDTH).foldl Writer.write_byte w).color_code⟩⟩ := by
    rw [hws, hfold, hwrap]
  refine ⟨?_, ?_, ?_⟩
  · intro i hi
    rw [hfinal, Writer.buffer_mk, Buffer.write_apply,
      if_neg (fun hC => absurd hC.1 (by decide)), new_line_buffer,
      if_neg (fun hC => absurd hC.1 (by decide)), if_pos ⟨by decide, hi⟩,
      hbuf1, if_pos ⟨by decide, by omega, by omega⟩, hcol0, Nat.sub_zero,
      getD_take_eq bs BUFFER_WIDTH i 0 hi]
  · rw [hfinal, Writer.buffer_mk, Buffer.write_apply, if_pos ⟨rfl, rfl⟩,
      hcolor1]
  · rw [hfinal, Writer.column_mk]

/-- Witness for C1: the wrap at a full column, and 81 copies of `A`
written from a cleared screen at column 0. -/
theorem c1_witness :
    ((testWriter 80).write_byte 0x41).column_position = 1 ∧
    ((testWriter 0).write_string (List.replicate 81 0x41)).column_position
      = 1 ∧
    ((testWriter 0).write_string (List.replicate 81 0x41)).buffer
      (BUFFER_HEIGHT - 2) 0 = ⟨0x41, testColor⟩ := by
  have hA := c1_wrap_before_write.1 (testWriter 80) 0x41 (by decide) (by decide)
  have hB := c1_wrap_before_write.2 (List.replicate 81 0x41) (testWriter 0)
    rfl (by decide) (by decide)
  refine ⟨?_, hB.2.2, ?_⟩
  · rw [hA]
  · rw [hB.1 0 (by decide)]
    rfl

/-- C2 counterexample: the claim also asserts that "the content that was
in row 0 before the call is no longer present anywhere in the grid
afterward".  On the all-blank screen the cell value that row 0 held (a
blank cell) is still present — at `(0, 0)` among other places — after
`new_line`, so that conjunct is false at this input. -/
theorem c2_counterexample :
    ((testWriter 0).new_line).buffer 0 0 = (testWriter 0).buffer 0 0 := by
  rw [new_line_buffer, if_neg (fun hC => absurd hC.1 (by decide)),
    if_pos ⟨by decide, by decide⟩]
  rfl

/-- C2 (amended): one `new_line` call copies the cell at `(row, col)` into
`(row - 1, col)` for every row in `1..BUFFER_HEIGHT` and every in-range
column, resets the column to 0, and fills every column of the bottom row
with the blank cell (space, current color); and instead of "row 0 is no
longer present" (false on e.g. a uniform grid): the post-state grid is
independent of row 0's prior content — two pre-states differing only in
row 0 produce identical in-range grids. -/
theorem c2_scroll_correct :
    (∀ (w : Writer) (r c : Nat), 1 ≤ r → r < BUFFER_HEIGHT →
      c < BUFFER_WIDTH → (w.new_line).buffer (r - 1) c = w.buffer r c) ∧
    (∀ w : Writer, (w.new_line).column_position = 0) ∧
    (∀ (w : Writer) (c : Nat), c < BUFFER_WIDTH →
      (w.new_line).buffer (BUFFER_HEIGHT - 1) c = ⟨0x20, w.color_code⟩) ∧
    (∀ (w w' : Writer), w.color_code = w'.color_code →
      (∀ r c, 1 ≤ r → w.buffer r c = w'.buffer r c) →
      ∀ r c, r < BUFFER_HEIGHT → c < BUFFER_WIDTH →
        (w.new_line).buffer r c = (w'.new_line).buffer r c) := by
  refine ⟨?_, new_line_column, ?_, ?_⟩
  · intro w r c h1 h2 h3
    have hH : BUFFER_HEIGHT = 25 := rfl
    have h2' : r < 25 := by rw [hH] at h2; exact h2
    have hne : ¬(r - 1 = BUFFER_HEIGHT - 1 ∧ c < BUFFER_WIDTH) := by
      rw [hH]
      omega
    have hlt : r - 1 < BUFFER_HEIGHT - 1 := by
      rw [hH]
      omega
    rw [new_line_buffer, if_neg hne, if_pos ⟨hlt, h3⟩,
      show r - 1 + 1 = r by omega]
  · intro w c hc
    rw [new_line_buffer, if_pos ⟨rfl, hc⟩]
  · intro w w' hcolor hbuf r c hr hc
    rw [new_line_buffer, new_line_buffer]
    split_ifs with h1 h2
    · rw [hcolor]
    · exact hbuf (r + 1) c (by omega)
    · have hH : BUFFER_HEIGHT = 25 := rfl
      rw [hH] at h1 h2 hr
      omega

/-- Witness for C2 (amended), at the blank writer and row 1. -/
theorem c2_witness :
    ((testWriter 0).new_line).buffer 0 5 = (testWriter 0).buffer 1 5 :=
  c2_scroll_correct.1 (testWriter 0) 1 5 (by decide) (by decide) (by decide)

/-- C3: Bounds invariant.  From any writer with `column ≤ BUFFER_WIDTH`,
after every prefix of an arbitrary sequence of `write_string` /
`write_byte` operations the column is still at most `BUFFER_WIDTH`; the
instrumented interpreter computes the same writer as the plain one; and
every buffer write it performs targets a row `< BUFFER_HEIGHT` and a
column `< BUFFER_WIDTH`. -/
theorem c3_bounds :
    ∀ (ops : List WriterOp) (w : Writer),
      w.column_position ≤ BUFFER_WIDTH →
      (∀ k, (w.runOps (ops.take k)).column_position ≤ BUFFER_WIDTH) ∧
      ((TraceState.trunOps ⟨w, [], false⟩ ops).writer = w.runOps ops) ∧
      ∀ p ∈ (TraceState.trunOps ⟨w, [], false⟩ ops).writes,
        p.1 < BUFFER_HEIGHT ∧ p.2 < BUFFER_WIDTH := by
  intro ops w h
  refine ⟨fun k => runOps_column_le (ops.take k) w h,
    (trunOps_components ops ⟨w, [], false⟩).1, ?_⟩
  intro p hp
  rcases (trunOps_components ops ⟨w, [], false⟩).2 p hp with h2 | h2
  · exact absurd h2 (List.not_mem_nil p)
  · exact h2

/-- Witness for C3 at a two-operation sequence. -/
theorem c3_witness :
    ((testWriter 0).runOps
      [WriterOp.writeString [0x41, 0x0a], WriterOp.writeByte 0x42]
        ).column_position ≤ BUFFER_WIDTH :=
  by
  have h := c3_bounds
    [WriterOp.writeString [0x41, 0x0a], WriterOp.writeByte 0x42]
    (testWriter 0) (by decide)
  exact h.1 2

/-- C4: Sanitization.  `write_string` processes its bytes in order; each
byte goes through the per-byte map `sanitize`: a byte in `0x20..=0x7e` or
the newline `0x0a` is forwarded unchanged to `write_byte`, every other
byte value is replaced by the invalid-glyph code `0xfe`; globally,
`write_string` is the fold of `write_byte` over the sanitized list. -/
theorem c4_sanitization :
    (∀ (w : Writer) (b : Nat) (s : List Nat),
      w.write_string (b :: s) = (w.write_byte (sanitize b)).write_string s) ∧
    (∀ b : Nat, (0x20 ≤ b ∧ b ≤ 0x7e) ∨ b = 0x0a → sanitize b = b) ∧
    (∀ b : Nat, ¬((0x20 ≤ b ∧ b ≤ 0x7e) ∨ b = 0x0a) → sanitize b = 0xfe) ∧
    (∀ (w : Writer) (s : List Nat),
      w.write_string s = (s.map sanitize).foldl Writer.write_byte w) := by
  refine ⟨write_string_cons, ?_, ?_, fun w s => write_string_eq_foldl_sanitize s w⟩
  · intro b hb
    unfold sanitize
    rw [if_pos hb]
  · intro b hb
    unfold sanitize
    rw [if_neg hb]

/-- Witness for C4: `A` passes through; `0xc3` (the first byte of the
two-byte encoding of `á`) is replaced. -/
theorem c4_witness :
    sanitize 0x41 = 0x41 ∧ sanitize 0xc3 = 0xfe ∧
    (testWriter 0).write_string [0xc3] =
      ((testWriter 0).write_byte (sanitize 0xc3)).write_string [] :=
  ⟨c4_sanitization.2.1 0x41 (by decide), c4_sanitization.2.2.1 0xc3 (by decide),
    c4_sanitization.1 (testWriter 0) 0xc3 []⟩

/-- C5 counterexample: the claim says that after any public operation
either `column < BUFFER_WIDTH` holds or the writer has just wrapped
(invoked `new_line` during that operation).  At column 79, writing one
printable byte completes with `column = 80 = BUFFER_WIDTH` and no
`new_line` was invoked (the instrumented wrap flag stays `false`), so the
claim is false at this input. -/
theorem c5_counterexample :
    ¬ (((TraceState.twrite_byte ⟨testWriter 79, [], false⟩ 0x41).writer.column_position
          < BUFFER_WIDTH) ∨
        (TraceState.twrite_byte ⟨testWriter 79, [], false⟩ 0x41).wrapped = true) := by
  rw [twrite_byte_no_wrap_eq ⟨testWriter 79, [], false⟩ 0x41 (by decide)
    (by decide)]
  decide

/-- C5 (amended): after any public operation the column is at most
`BUFFER_WIDTH` (it can equal `BUFFER_WIDTH` without a wrap having
happened: the wrap is deferred to the next non-newline `write_byte`,
which then does set the wrap flag); the instrumented operation computes
the plain one. -/
theorem c5_column_after_op :
    ∀ (w : Writer) (b : Nat) (s : List Nat),
      w.column_position ≤ BUFFER_WIDTH →
      ((TraceState.twrite_byte ⟨w, [], false⟩ b).writer = w.write_byte b) ∧
      (w.write_byte b).column_position ≤ BUFFER_WIDTH ∧
      (w.write_string s).column_position ≤ BUFFER_WIDTH ∧
      (BUFFER_WIDTH ≤ w.column_position → b ≠ 0x0a →
        (TraceState.twrite_byte ⟨w, [], false⟩ b).wrapped = true) := by
  intro w b s h
  refine ⟨(twrite_byte_components ⟨w, [], false⟩ b).1, write_byte_column_le w b,
    write_string_column_le s w h, ?_⟩
  intro hcol hb
  rw [twrite_byte_wrap_eq ⟨w, [], false⟩ b hb hcol]
  exact (tnew_line_components ⟨w, [], false⟩).2.1

/-- Witness for C5 (amended) at column 79 and byte `A`. -/
theorem c5_witness :
    ((testWriter 79).write_byte 0x41).column_position ≤ BUFFER_WIDTH :=
  (c5_column_after_op (testWriter 79) 0x41 [] (by decide)).2.1

/-- C6: ColorCode packing.  For all 16 × 16 color pairs the attribute
byte equals `(background <<< 4) ||| foreground`: the background occupies
bits 4–7 (recovered by `>>> 4`), the foreground bits 0–3 (recovered by
`% 16`), and the value fits in one byte. -/
theorem c6_color_code_packing :
    ∀ (fg bg : Color),
      (ColorCode.new fg bg).val = ((bg.code <<< 4) ||| fg.code) ∧
      (ColorCode.new fg bg).val >>> 4 = bg.code ∧
      (ColorCode.new fg bg).val % 16 = fg.code ∧
      (ColorCode.new fg bg).val < 256 := by
  decide

/-- C7: clear_line.  For any row index `< BUFFER_HEIGHT`, `clear_line`
writes the blank cell (space, current color) into every in-range column
of that row, touches no other row, and leaves the column and color
unchanged. -/
theorem c7_clear_line :
    ∀ (w : Writer) (row : Nat), row < BUFFER_HEIGHT →
      (∀ c, c < BUFFER_WIDTH →
        (w.clear_line row).buffer row c = ⟨0x20, w.color_code⟩) ∧
      (∀ r c, r ≠ row → (w.clear_line row).buffer r c = w.buffer r c) ∧
      (w.clear_line row).column_position = w.column_position ∧
      (w.clear_line row).color_code = w.color_code := by
  intro w row hrow
  refine ⟨?_, ?_, clear_line_column w row, clear_line_color w row⟩
  · intro c hc
    rw [clear_line_buffer, if_pos ⟨rfl, hc⟩]
  · intro r c hr
    rw [clear_line_buffer, if_neg (fun hC => hr hC.1)]

/-- Witness for C7 at row 3 of the blank writer. -/
theorem c7_witness :
    ((testWriter 0).clear_line 3).buffer 3 0 = ⟨0x20, testColor⟩ :=
  (c7_clear_line (testWriter 0) 3 (by decide)).1 0 (by decide)

/-- C8: print-line semantics.  `println!` with a template writes the
formatted bytes followed by exactly one newline byte through the writer,
and the zero-argument `println!()` is exactly one `new_line` invocation
(so in particular it resets the column to 0). -/
theorem c8_println :
    (∀ (w : Writer) (s : List Nat),
      println_fmt w s = (w.write_string s).write_byte 0x0a) ∧
    (∀ w : Writer, println_noargs w = w.new_line) ∧
    (∀ w : Writer, (println_noargs w).column_position = 0) := by
  refine ⟨?_, ?_, ?_⟩
  · intro w s
    show w.write_string (s ++ [0x0a]) = (w.write_string s).write_byte 0x0a
    rw [write_string_eq_foldl_sanitize, List.map_append,
      List.foldl_append, show List.map sanitize [0x0a] = [0x0a] from rfl,
      List.foldl_cons, List.foldl_nil, ← write_string_eq_foldl_sanitize]
  · intro w
    rfl
  · intro w
    show (w.new_line).column_position = 0
    exact new_line_column w

/-- C9: frame property of a non-wrapping write.  With `column <
BUFFER_WIDTH` and a non-newline byte, `write_byte` sets exactly the cell
`(BUFFER_HEIGHT - 1, column)` to the byte paired with the current color,
leaves every other cell and the color unchanged, and increments the
column by exactly one. -/
theorem c9_frame_no_wrap :
    ∀ (w : Writer) (b : Nat), b ≠ 0x0a → w.column_position < BUFFER_WIDTH →
      ((w.write_byte b).buffer (BUFFER_HEIGHT - 1) w.column_position =
        ⟨b, w.color_code⟩) ∧
      (∀ r c, ¬(r = BUFFER_HEIGHT - 1 ∧ c = w.column_position) →
        (w.write_byte b).buffer r c = w.buffer r c) ∧
      (w.write_byte b).column_position = w.column_position + 1 ∧
      (w.write_byte b).color_code = w.color_code := by
  intro w b hb hc
  rw [write_byte_no_wrap w b hb hc]
  refine ⟨?_, ?_, rfl, rfl⟩
  · rw [Writer.buffer_mk, Buffer.write_apply, if_pos ⟨rfl, rfl⟩]
  · intro r c hrc
    rw [Writer.buffer_mk, Buffer.write_apply, if_neg hrc]

/-- Witness for C9: `H` written at column 5 of the blank writer. -/
theorem c9_witness :
    ((testWriter 5).write_byte 0x48).buffer (BUFFER_HEIGHT - 1) 5 =
      ⟨0x48, testColor⟩ ∧
    ((testWriter 5).write_byte 0x48).column_position = 6 ∧
    ((testWriter 5).write_byte 0x48).buffer 0 0 = (testWriter 5).buffer 0 0 :=
  ⟨(c9_frame_no_wrap (testWriter 5) 0x48 (by decide) (by decide)).1,
    (c9_frame_no_wrap (testWriter 5) 0x48 (by decide) (by decide)).2.2.1,
    (c9_frame_no_wrap (testWriter 5) 0x48 (by decide) (by decide)).2.1 0 0
      (by decide)⟩

/-- C10: sanitization idempotence.  The invalid-glyph code `0xfe` is
itself non-printable and not the newline, the per-byte map `sanitize` is
idempotent, and writing an already-sanitized byte list produces exactly
the same writer state and grid as writing the original list. -/
theorem c10_sanitize_idempotent :
    (¬(0x20 ≤ (0xfe : Nat) ∧ (0xfe : Nat) ≤ 0x7e) ∧ (0xfe : Nat) ≠ 0x0a) ∧
    (∀ b : Nat, sanitize (sanitize b) = sanitize b) ∧
    (∀ (w : Writer) (s : List Nat),
      w.write_string (s.map sanitize) = w.write_string s) := by
  have hid : ∀ b : Nat, sanitize (sanitize b) = sanitize b := by
    intro b
    by_cases h : (0x20 ≤ b ∧ b ≤ 0x7e) ∨ b = 0x0a
    · have hsb : sanitize b = b := by
        unfold sanitize
        rw [if_pos h]
      rw [hsb]
      exact hsb
    · have hsb : sanitize b = 0xfe := by
        unfold sanitize
        rw [if_neg h]
      rw [hsb]
      decide
  refine ⟨by decide, hid, ?_⟩
  intro w s
  rw [write_string_eq_foldl_sanitize, write_string_eq_foldl_sanitize,
    List.map_map,
    show List.map (sanitize ∘ sanitize) s = List.map sanitize s from
      List.map_congr_left (fun b _ => hid b)]

end Vga
